import Mathlib

/-!
Verification of the candidate-retrieval and deterministic spec-matching
subsystem of an RFP technical-agent system for industrial cables.

The development shallowly embeds the Python sources:
  * `utils/attribute_utils.py` — value normalization (`normalize_value`);
  * `utils/match_engine.py`    — the `SpecMatchEngine` weighted scorer;
  * `utils/vector_db.py`       — `SimpleEmbedder` and `VectorDatabase`;
  * `config.py`                — weights, thresholds and the synonym table.

Python strings are modelled as Lean `String`s over their ASCII fragment
(the data of this system is ASCII); float arithmetic is modelled exactly
over `ℚ` for the match engine, and over `ℝ` for the embedding pipeline
(where `np.log`, `np.linalg.norm` and division are genuinely real-valued).
-/

namespace RFP

/-! ## Python string primitives (ASCII fragment)

`str.strip()` removes leading and trailing whitespace; `str.lower()`
lower-cases; `str.replace(pat, "")` removes every non-overlapping
occurrence of `pat`, scanning left to right. -/

/-- Characters removed by Python's `str.strip()` (the ASCII whitespace set:
space, tab, newline, carriage return, vertical tab, form feed). -/
def pyWs (c : Char) : Bool :=
  c = ' ' || c = '\t' || c = '\n' || c = '\r' || c = Char.ofNat 11 || c = Char.ofNat 12

/-- The upper-to-lower table of the ASCII letters. -/
def lowerPairs : List (Char × Char) :=
  [('A', 'a'), ('B', 'b'), ('C', 'c'), ('D', 'd'), ('E', 'e'), ('F', 'f'),
   ('G', 'g'), ('H', 'h'), ('I', 'i'), ('J', 'j'), ('K', 'k'), ('L', 'l'),
   ('M', 'm'), ('N', 'n'), ('O', 'o'), ('P', 'p'), ('Q', 'q'), ('R', 'r'),
   ('S', 's'), ('T', 't'), ('U', 'u'), ('V', 'v'), ('W', 'w'), ('X', 'x'),
   ('Y', 'y'), ('Z', 'z')]

/-- One character of Python's `str.lower()`, on the ASCII letters. -/
def pyLowerChar (c : Char) : Char :=
  ((lowerPairs.find? fun p => p.1 = c).map Prod.snd).getD c

/-- Python's `str.lower()`. -/
def pyLower (s : String) : String := ⟨s.data.map pyLowerChar⟩

/-- Strip whitespace from both ends of a character list (`str.strip()`). -/
def stripList (l : List Char) : List Char :=
  ((l.dropWhile pyWs).reverse.dropWhile pyWs).reverse

/-- Python's `str.strip()`. -/
def pyStrip (s : String) : String := ⟨stripList s.data⟩

/-- Worker for `removeRuns`: the fuel argument (at least the list's length)
only makes the recursion structural; each step consumes at least one
character, so the fuel never runs out on the lists `removeRuns` passes. -/
def removeRunsAux (pat : List Char) : ℕ → List Char → List Char
  | _, [] => []
  | 0, l => l
  | fuel + 1, c :: cs =>
    if pat ≠ [] ∧ (c :: cs).take pat.length = pat then
      removeRunsAux pat fuel ((c :: cs).drop pat.length)
    else
      c :: removeRunsAux pat fuel cs

/-- Remove every non-overlapping occurrence of `pat` from `l`, scanning left
to right — `str.replace(pat, "")` on character lists. An empty pattern
removes nothing (the source only ever removes non-empty unit suffixes). -/
def removeRuns (pat l : List Char) : List Char := removeRunsAux pat l.length l

/-- Python's `s.replace(pat, "")`. -/
def pyRemove (pat s : String) : String := ⟨removeRuns pat.data s.data⟩

example : pyRemove "v" (pyRemove "kv" "11kv") = "11" := by decide
example : pyRemove "kv" "kkvv" = "kv" := by decide
example : pyRemove "sqmm" "300sqmm" = "300" := by decide

/-! ## `config.py` constants -/

/-- Score below which a match is flagged non-viable
(`config.MINIMUM_MATCH_THRESHOLD = 60.0`). -/
def MINIMUM_MATCH_THRESHOLD : ℚ := 60

/-- The default attribute weights (`config.ATTRIBUTE_WEIGHTS`), written as an
association list in the dict's insertion order, floats as exact rationals. -/
def ATTRIBUTE_WEIGHTS : List (String × ℚ) :=
  [("voltage", 25/100), ("conductor_material", 20/100), ("cross_section", 15/100),
   ("core_count", 15/100), ("insulation", 10/100), ("armouring", 10/100),
   ("sheathing", 5/100)]

/-- The synonym table `config.NORMALIZED_VALUES`, in source order. The source
dict writes the key `"pvc"` twice with the same value; the later entry is
kept here too (lookup finds the first, which is identical). -/
def NORMALIZED_VALUES : List (String × String) :=
  [("aluminum", "al"), ("aluminium", "al"), ("al", "al"),
   ("copper", "cu"), ("cu", "cu"),
   ("xlpe", "xlpe"), ("cross linked polyethylene", "xlpe"),
   ("pvc", "pvc"), ("polyvinyl chloride", "pvc"),
   ("epr", "epr"), ("ethylene propylene rubber", "epr"),
   ("gi strip", "gi_strip"), ("galvanized iron strip", "gi_strip"),
   ("galvanised iron strip", "gi_strip"),
   ("gi wire", "gi_wire"), ("galvanized iron wire", "gi_wire"),
   ("galvanised iron wire", "gi_wire"),
   ("steel wire", "swa"), ("swa", "swa"), ("steel wire armoured", "swa"),
   ("steel wire armour", "swa"),
   ("unarmoured", "unarmoured"), ("none", "unarmoured"),
   ("pvc", "pvc"), ("pe", "pe"), ("polyethylene", "pe"),
   ("lszh", "lszh"), ("low smoke zero halogen", "lszh")]

/-! ## `attribute_utils.normalize_value` -/

/-- `attribute_utils.normalize_value`: an empty (falsy) string maps to `""`;
otherwise lower-case, strip, and look the result up in the synonym table,
unknown values passing through unchanged. The `value_type` parameter of the
source is ignored by its body and omitted here. -/
def normalize_value (value : String) : String :=
  if value = "" then ""
  else
    let normalized := pyStrip (pyLower value)
    match NORMALIZED_VALUES.lookup normalized with
    | some v => v
    | none => normalized

example : normalize_value "Aluminium" = "al" := by decide
example : normalize_value "  Steel Wire Armour " = "swa" := by decide
example : normalize_value "GI_Strip" = "gi_strip" := by decide
example : normalize_value "" = "" := by decide
example : normalize_value "   " = "" := by decide

/-! ## The data model (`models.py`) -/

/-- An attribute value as it reaches the match engine: a string, or an
integer (the `core_count` field of `ExtractedAttributes` is `Optional[int]`,
every other field `Optional[str]`). -/
inductive AttrVal where
  | s (v : String)
  | i (v : Int)
deriving DecidableEq, Repr

/-- `models.ExtractedAttributes`: the fixed record of seven optional
normalized technical attributes. -/
structure ExtractedAttributes where
  voltage : Option String := none
  conductor_material : Option String := none
  cross_section : Option String := none
  core_count : Option Int := none
  insulation : Option String := none
  armouring : Option String := none
  sheathing : Option String := none
deriving DecidableEq, Repr

/-- The seven attribute names of the data model, in field order. -/
def canonicalAttrs : List String :=
  ["voltage", "conductor_material", "cross_section", "core_count",
   "insulation", "armouring", "sheathing"]

/-- `ExtractedAttributes.to_normalized_dict` followed by `dict.get`: the
record as a partial map from attribute name to value (absent fields and
unknown names give `None`). -/
def ExtractedAttributes.get (a : ExtractedAttributes) (attr : String) : Option AttrVal :=
  if attr = "voltage" then a.voltage.map .s
  else if attr = "conductor_material" then a.conductor_material.map .s
  else if attr = "cross_section" then a.cross_section.map .s
  else if attr = "core_count" then a.core_count.map .i
  else if attr = "insulation" then a.insulation.map .s
  else if attr = "armouring" then a.armouring.map .s
  else if attr = "sheathing" then a.sheathing.map .s
  else none

/-- The record with no attribute specified (`ExtractedAttributes()`). -/
def emptyAttrs : ExtractedAttributes := {}

/-- A record is fully specified when all seven fields carry a value. -/
def fullySpecified (a : ExtractedAttributes) : Prop :=
  a.voltage.isSome ∧ a.conductor_material.isSome ∧ a.cross_section.isSome ∧
  a.core_count.isSome ∧ a.insulation.isSome ∧ a.armouring.isSome ∧ a.sheathing.isSome

instance (a : ExtractedAttributes) : Decidable (fullySpecified a) := by
  unfold fullySpecified; infer_instance

/-- `models.MatchStatus`. -/
inductive MatchStatus where
  | exact_match
  | close_match
  | partial_match
  | no_match
deriving DecidableEq, Repr

/-! ## Python `float()` on the numeric strings of this domain

The comparators call `float(...)` on unit-stripped voltage / cross-section
strings and catch `ValueError`. `pyFloat` models the decimal fragment of
Python's `float(str)`: optional surrounding whitespace, an optional sign,
and digits with an optional fractional part (`"11"`, `"0.4"`, `"1."`,
`".5"`). Exponents, `inf`/`nan` and digit underscores do not occur in this
domain and parse to `none` here. -/

/-- The numeric value of a digit list, most significant first. -/
def digitsVal (l : List Char) : ℕ :=
  l.foldl (fun acc c => 10 * acc + (c.toNat - '0'.toNat)) 0

/-- Decimal fragment of Python's `float(str)`: `none` models a raised
`ValueError`. -/
def pyFloat (str : String) : Option ℚ :=
  let l := (pyStrip str).data
  let (sign, l') : ℚ × List Char :=
    match l with
    | '-' :: r => (-1, r)
    | '+' :: r => (1, r)
    | _ => (1, l)
  let intPart := l'.takeWhile Char.isDigit
  let rest := l'.dropWhile Char.isDigit
  match rest with
  | [] =>
    if intPart = [] then none
    else some (sign * digitsVal intPart)
  | '.' :: frac =>
    if frac.all Char.isDigit ∧ ¬(intPart = [] ∧ frac = []) then
      some (sign * (digitsVal intPart + digitsVal frac / 10 ^ frac.length))
    else none
  | _ => none

example : pyFloat "11" = some 11 := by
  simp [pyFloat, pyStrip, stripList, pyWs, digitsVal]
example : pyFloat " 6.6 " = some (33/5) := by
  simp [pyFloat, pyStrip, stripList, pyWs, digitsVal]; norm_num
example : pyFloat "-3." = some (-3) := by
  simp [pyFloat, pyStrip, stripList, pyWs, digitsVal]
example : pyFloat ".5" = some (1/2) := by
  simp [pyFloat, pyStrip, stripList, pyWs, digitsVal]; norm_num
example : pyFloat "" = none := by
  simp [pyFloat, pyStrip, stripList, pyWs, digitsVal]
example : pyFloat "." = none := by
  simp [pyFloat, pyStrip, stripList, pyWs, digitsVal]
example : pyFloat "11kv" = none := by
  simp [pyFloat, pyStrip, stripList, pyWs, digitsVal]

/-! ## The match engine (`utils/match_engine.py`) -/

/-- Normalize one comparison operand as `_compare_attribute` does: strings go
through `normalize_value`, any other value is left unchanged. -/
def normalizeOperand : AttrVal → AttrVal
  | .s v => .s (normalize_value v)
  | .i v => .i v

/-- `SpecMatchEngine._compare_voltage`: strip the units `"kv"` then `"v"`,
parse both sides as floats, and credit 1 within 0.1, 0.8 when the candidate
is higher, 0 when lower. A parse failure (`ValueError`) or a non-string
operand (`AttributeError`) is caught and credits 0 — the comparator never
raises. -/
def compare_voltage (rfp_voltage oem_voltage : AttrVal) : ℚ :=
  match rfp_voltage, oem_voltage with
  | .s rv, .s ov =>
    match pyFloat (pyRemove "v" (pyRemove "kv" rv)),
          pyFloat (pyRemove "v" (pyRemove "kv" ov)) with
    | some rfp_num, some oem_num =>
      if |rfp_num - oem_num| < 1/10 then 1
      else if rfp_num < oem_num then 8/10
      else 0
    | _, _ => 0
  | _, _ => 0

/-- `SpecMatchEngine._compare_cross_section`: same shape as the voltage
comparator with unit `"sqmm"` and candidate-higher credit 0.9. -/
def compare_cross_section (rfp_cs oem_cs : AttrVal) : ℚ :=
  match rfp_cs, oem_cs with
  | .s rv, .s ov =>
    match pyFloat (pyRemove "sqmm" rv), pyFloat (pyRemove "sqmm" ov) with
    | some rfp_num, some oem_num =>
      if |rfp_num - oem_num| < 1/10 then 1
      else if rfp_num < oem_num then 9/10
      else 0
    | _, _ => 0
  | _, _ => 0

/-- `SpecMatchEngine._compare_attribute`: normalize both operands, credit 1
on exact equality, otherwise dispatch on the attribute name (voltage and
cross-section tolerate a higher candidate with partial credit, core count
and all remaining attributes are equality-only). -/
def compare_attribute (attr_name : String) (rfp_value oem_value : AttrVal) : ℚ :=
  if normalizeOperand rfp_value = normalizeOperand oem_value then 1
  else if attr_name = "voltage" then
    compare_voltage (normalizeOperand rfp_value) (normalizeOperand oem_value)
  else if attr_name = "cross_section" then
    compare_cross_section (normalizeOperand rfp_value) (normalizeOperand oem_value)
  else if attr_name = "core_count" then
    (if normalizeOperand rfp_value = normalizeOperand oem_value then 1 else 0)
  else 0

/-- Round half to even, the rounding of Python's `round`. -/
def roundHalfEven (q : ℚ) : ℤ :=
  if q - ⌊q⌋ < 1/2 then ⌊q⌋
  else if 1/2 < q - ⌊q⌋ then ⌊q⌋ + 1
  else if 2 ∣ ⌊q⌋ then ⌊q⌋ else ⌊q⌋ + 1

/-- Python's `round(x, 2)`. -/
def pyRound2 (x : ℚ) : ℚ := (roundHalfEven (x * 100) : ℚ) / 100

/-- The engine's state: its attribute weights, as validated at
construction. -/
structure Engine where
  weights : List (String × ℚ)
deriving DecidableEq, Repr

/-- The sum of a weight mapping's values. -/
def sumWeights (ws : List (String × ℚ)) : ℚ := (ws.map Prod.snd).sum

/-- The weights `SpecMatchEngine.__init__` actually validates and stores:
`self.weights = weights or ATTRIBUTE_WEIGHTS` replaces a `None` argument —
and, Python truthiness being what it is, also an empty mapping — by the
defaults. -/
def effectiveWeights (weights : Option (List (String × ℚ))) : List (String × ℚ) :=
  match weights with
  | none => ATTRIBUTE_WEIGHTS
  | some w => if w = [] then ATTRIBUTE_WEIGHTS else w

/-- `SpecMatchEngine.__init__`: construction fails (`ValueError`) unless the
effective weights sum to 1.0 within 0.01 (`abs(total - 1.0) > 0.01`). No
other validation is performed. -/
def mkEngine (weights : Option (List (String × ℚ))) : Except String Engine :=
  if 1/100 < |sumWeights (effectiveWeights weights) - 1| then
    .error "Weights must sum to 1.0"
  else
    .ok ⟨effectiveWeights weights⟩

theorem isOk_ok (e : Engine) : (Except.ok e : Except String Engine).isOk = true := rfl

theorem isOk_error (s : String) : (Except.error s : Except String Engine).isOk = false := rfl

/-- The default engine, `SpecMatchEngine()`. -/
def defaultEngine : Engine := ⟨ATTRIBUTE_WEIGHTS⟩

/-- The loop body of `calculate_match_score`, processing the weighted
attributes left to right: an attribute the requirement does not specify
awards its full weight silently; one the candidate lacks awards nothing and
is recorded missing; otherwise the comparator's credit is awarded and the
attribute recorded matched (credit 1), mismatched with a `" (partial)"`
qualifier (fractional credit) or mismatched plain (credit 0). Returns
(raw weighted sum, matched, mismatched, missing). -/
def calcLoop (rd od : String → Option AttrVal) :
    List (String × ℚ) → ℚ × List String × List String × List String
  | [] => (0, [], [], [])
  | (attr_name, weight) :: rest =>
    let acc := calcLoop rd od rest
    match rd attr_name with
    | none => (weight + acc.1, acc.2.1, acc.2.2.1, acc.2.2.2)
    | some rfp_value =>
      match od attr_name with
      | none => (acc.1, acc.2.1, acc.2.2.1, attr_name :: acc.2.2.2)
      | some oem_value =>
        let c := compare_attribute attr_name rfp_value oem_value
        if c = 1 then (weight + acc.1, attr_name :: acc.2.1, acc.2.2.1, acc.2.2.2)
        else if 0 < c then
          (weight * c + acc.1, acc.2.1, (attr_name ++ " (partial)") :: acc.2.2.1, acc.2.2.2)
        else (acc.1, acc.2.1, attr_name :: acc.2.2.1, acc.2.2.2)

/-- `SpecMatchEngine.calculate_match_score`: run the loop over the engine's
weights and convert the raw sum to a percentage rounded to 2 decimals.
Returns (score, matched, mismatched, missing). -/
def calculate_match_score (e : Engine) (rfp_attrs oem_attrs : ExtractedAttributes) :
    ℚ × List String × List String × List String :=
  let res := calcLoop rfp_attrs.get oem_attrs.get e.weights
  (pyRound2 (res.1 * 100), res.2.1, res.2.2.1, res.2.2.2)

/-- The status classification of `SpecMatchEngine.match_product` (lines
206-214): EXACT at 95, CLOSE at 80, PARTIAL at the configured minimum
threshold, NONE below. -/
def matchStatusOf (score : ℚ) : MatchStatus :=
  if 95 ≤ score then .exact_match
  else if 80 ≤ score then .close_match
  else if MINIMUM_MATCH_THRESHOLD ≤ score then .partial_match
  else .no_match

/-! ## Rounding lemmas -/

theorem roundHalfEven_intCast (n : ℤ) : roundHalfEven (n : ℚ) = n := by
  simp [roundHalfEven, Int.floor_intCast]

theorem pyRound2_ofMul (x : ℚ) (m : ℤ) (h : x * 100 = (m : ℚ)) :
    pyRound2 x = (m : ℚ) / 100 := by
  rw [pyRound2, h, roundHalfEven_intCast]

theorem roundHalfEven_nonneg (q : ℚ) (h : 0 ≤ q) : 0 ≤ roundHalfEven q := by
  have h1 : (0 : ℤ) ≤ ⌊q⌋ := Int.floor_nonneg.mpr h
  unfold roundHalfEven
  split_ifs <;> omega

theorem roundHalfEven_le (q : ℚ) (n : ℤ) (h : q ≤ n) : roundHalfEven q ≤ n := by
  have h1 : ⌊q⌋ ≤ n := by
    have := Int.floor_le_floor h
    rwa [Int.floor_intCast] at this
  rcases eq_or_lt_of_le h1 with heq | hlt
  · have hq : (n : ℚ) ≤ q := by rw [← heq]; exact Int.floor_le q
    have hq2 : q = (n : ℚ) := le_antisymm h hq
    unfold roundHalfEven
    rw [hq2, Int.floor_intCast]
    norm_num
  · unfold roundHalfEven
    split_ifs <;> omega

theorem pyRound2_idem (x : ℚ) : pyRound2 (pyRound2 x) = pyRound2 x := by
  have h : pyRound2 x * 100 = ((roundHalfEven (x * 100) : ℤ) : ℚ) := by
    rw [pyRound2]; field_simp
  rw [pyRound2_ofMul _ _ h, pyRound2]

/-! ## Per-attribute score contributions

The loop of `calculate_match_score` awards, per weighted attribute, the
amount `attrContribution` names; the lemmas below restate the loop as the
sum of these contributions and characterize the recorded lists. -/

/-- What one iteration of the scoring loop adds to the raw score for
attribute `attr` of weight `w`. -/
def attrContribution (rd od : String → Option AttrVal) (attr : String) (w : ℚ) : ℚ :=
  match rd attr with
  | none => w
  | some rv =>
    match od attr with
    | none => 0
    | some ov =>
      let c := compare_attribute attr rv ov
      if c = 1 then w else if 0 < c then w * c else 0

theorem calcLoop_cons_fst (rd od : String → Option AttrVal) (a : String) (w : ℚ)
    (rest : List (String × ℚ)) :
    (calcLoop rd od ((a, w) :: rest)).1
      = attrContribution rd od a w + (calcLoop rd od rest).1 := by
  cases h1 : rd a with
  | none => simp [calcLoop, attrContribution, h1]
  | some rv =>
    cases h2 : od a with
    | none => simp [calcLoop, attrContribution, h1, h2]
    | some ov =>
      simp only [calcLoop, attrContribution, h1, h2]
      split_ifs <;> simp

theorem calcLoop_score (rd od : String → Option AttrVal) (ws : List (String × ℚ)) :
    (calcLoop rd od ws).1 = (ws.map fun p => attrContribution rd od p.1 p.2).sum := by
  induction ws with
  | nil => simp [calcLoop]
  | cons p rest ih =>
    obtain ⟨a, w⟩ := p
    rw [calcLoop_cons_fst, ih, List.map_cons, List.sum_cons]

theorem attrContribution_of_get_eq (rd od : String → Option AttrVal) (a : String) (w : ℚ)
    (h : rd a = od a) : attrContribution rd od a w = w := by
  unfold attrContribution
  cases h1 : rd a with
  | none => rfl
  | some rv =>
    rw [← h, h1]
    have hc : compare_attribute a rv rv = 1 := by simp [compare_attribute]
    simp [hc]

/-- No attribute name of the data model equals another one decorated with
the `" (partial)"` qualifier. -/
theorem canonical_ne_decorated :
    ∀ a ∈ canonicalAttrs, ∀ b ∈ canonicalAttrs, a ≠ b ++ " (partial)" := by
  decide

/-- No attribute the requirement leaves unspecified is ever recorded, given
that the weight keys are attribute names of the data model (decorated
`" (partial)"` strings, which mismatch entries of other attributes can
carry, are never themselves attribute names). -/
theorem calcLoop_not_mem_of_none (rd od : String → Option AttrVal) (a : String)
    (ws : List (String × ℚ)) (hkeys : ∀ p ∈ ws, p.1 ∈ canonicalAttrs)
    (hac : a ∈ canonicalAttrs) (ha : rd a = none) :
    a ∉ (calcLoop rd od ws).2.1 ∧ a ∉ (calcLoop rd od ws).2.2.1 ∧
    a ∉ (calcLoop rd od ws).2.2.2 := by
  induction ws with
  | nil => simp [calcLoop]
  | cons p rest ih =>
    obtain ⟨b, w⟩ := p
    have hb : b ∈ canonicalAttrs := hkeys (b, w) (by simp)
    have ihr := ih (fun q hq => hkeys q (List.mem_cons_of_mem _ hq))
    cases h1 : rd b with
    | none => simpa [calcLoop, h1] using ihr
    | some rv =>
      have hba : a ≠ b := fun h => by rw [h, h1] at ha; cases ha
      cases h2 : od b with
      | none =>
        simp only [calcLoop, h1, h2]
        exact ⟨ihr.1, ihr.2.1, by simp [hba, ihr.2.2]⟩
      | some ov =>
        simp only [calcLoop, h1, h2]
        split_ifs with hc1 hc0
        · exact ⟨by simp [hba, ihr.1], ihr.2.1, ihr.2.2⟩
        · exact ⟨ihr.1, by simp [canonical_ne_decorated a hac b hb, ihr.2.1], ihr.2.2⟩
        · exact ⟨ihr.1, by simp [hba, ihr.2.1], ihr.2.2⟩

/-- An attribute the requirement specifies but the candidate lacks is
recorded missing. -/
theorem calcLoop_mem_missing (rd od : String → Option AttrVal) (a : String) (w : ℚ)
    (ws : List (String × ℚ)) (hin : (a, w) ∈ ws) (hr : rd a ≠ none) (ho : od a = none) :
    a ∈ (calcLoop rd od ws).2.2.2 := by
  induction ws with
  | nil => cases hin
  | cons p rest ih =>
    obtain ⟨b, w'⟩ := p
    rcases List.mem_cons.mp hin with hhead | htail
    · obtain ⟨hab, -⟩ := Prod.mk.injEq .. ▸ hhead
      cases h1 : rd b with
      | none => exact absurd (hab ▸ h1) hr
      | some rv =>
        rw [hab] at ho ⊢
        simp [calcLoop, h1, ho]
    · have ihm := ih htail
      cases h1 : rd b with
      | none => simpa [calcLoop, h1] using ihm
      | some rv =>
        cases h2 : od b with
        | none => simp only [calcLoop, h1, h2]; simp [ihm]
        | some ov =>
          simp only [calcLoop, h1, h2]
          split_ifs <;> simpa using ihm

/-- An attribute whose comparator awards a fractional credit is recorded
mismatched with the `" (partial)"` qualifier. -/
theorem calcLoop_mem_partial (rd od : String → Option AttrVal) (a : String) (w : ℚ)
    (rv ov : AttrVal) (ws : List (String × ℚ)) (hin : (a, w) ∈ ws)
    (hr : rd a = some rv) (ho : od a = some ov)
    (hc1 : compare_attribute a rv ov ≠ 1) (hc0 : 0 < compare_attribute a rv ov) :
    (a ++ " (partial)") ∈ (calcLoop rd od ws).2.2.1 := by
  induction ws with
  | nil => cases hin
  | cons p rest ih =>
    obtain ⟨b, w'⟩ := p
    rcases List.mem_cons.mp hin with hhead | htail
    · obtain ⟨hab, -⟩ := Prod.mk.injEq .. ▸ hhead
      subst hab
      simp [calcLoop, hr, ho, hc1, hc0]
    · have ihm := ih htail
      cases h1 : rd b with
      | none => simpa [calcLoop, h1] using ihm
      | some rv' =>
        cases h2 : od b with
        | none => simpa [calcLoop, h1, h2] using ihm
        | some ov' =>
          simp only [calcLoop, h1, h2]
          split_ifs <;> simp [ihm]

/-! ## Comparator credit values -/

theorem compare_voltage_cases (v w : AttrVal) :
    compare_voltage v w = 0 ∨ compare_voltage v w = 8/10 ∨ compare_voltage v w = 1 := by
  cases v with
  | i n => simp [compare_voltage]
  | s rv =>
    cases w with
    | i n => simp [compare_voltage]
    | s ov =>
      simp only [compare_voltage]
      rcases pyFloat (pyRemove "v" (pyRemove "kv" rv)) with _ | x <;>
        rcases pyFloat (pyRemove "v" (pyRemove "kv" ov)) with _ | y
      · simp
      · simp
      · simp
      · dsimp only
        split_ifs <;> norm_num

theorem compare_cross_section_cases (v w : AttrVal) :
    compare_cross_section v w = 0 ∨ compare_cross_section v w = 9/10 ∨
    compare_cross_section v w = 1 := by
  cases v with
  | i n => simp [compare_cross_section]
  | s rv =>
    cases w with
    | i n => simp [compare_cross_section]
    | s ov =>
      simp only [compare_cross_section]
      rcases pyFloat (pyRemove "sqmm" rv) with _ | x <;>
        rcases pyFloat (pyRemove "sqmm" ov) with _ | y
      · simp
      · simp
      · simp
      · dsimp only
        split_ifs <;> norm_num

theorem compare_attribute_cases (attr : String) (v w : AttrVal) :
    compare_attribute attr v w = 0 ∨ compare_attribute attr v w = 8/10 ∨
    compare_attribute attr v w = 9/10 ∨ compare_attribute attr v w = 1 := by
  unfold compare_attribute
  by_cases h1 : normalizeOperand v = normalizeOperand w
  · rw [if_pos h1]; simp
  · rw [if_neg h1]
    by_cases h2 : attr = "voltage"
    · rw [if_pos h2]
      rcases compare_voltage_cases (normalizeOperand v) (normalizeOperand w) with h | h | h <;>
        simp [h]
    · rw [if_neg h2]
      by_cases h3 : attr = "cross_section"
      · rw [if_pos h3]
        rcases compare_cross_section_cases (normalizeOperand v) (normalizeOperand w) with
          h | h | h <;> simp [h]
      · rw [if_neg h3]
        by_cases h4 : attr = "core_count"
        · rw [if_pos h4, if_neg h1]; simp
        · rw [if_neg h4]; simp

theorem compare_attribute_nonneg (attr : String) (v w : AttrVal) :
    0 ≤ compare_attribute attr v w := by
  rcases compare_attribute_cases attr v w with h | h | h | h <;> rw [h] <;> norm_num

theorem compare_attribute_le_one (attr : String) (v w : AttrVal) :
    compare_attribute attr v w ≤ 1 := by
  rcases compare_attribute_cases attr v w with h | h | h | h <;> rw [h] <;> norm_num

theorem attrContribution_nonneg (rd od : String → Option AttrVal) (a : String) (w : ℚ)
    (hw : 0 ≤ w) : 0 ≤ attrContribution rd od a w := by
  unfold attrContribution
  cases rd a with
  | none => exact hw
  | some rv =>
    cases od a with
    | none => exact le_refl 0
    | some ov =>
      simp only
      split_ifs with h1 h2
      · exact hw
      · exact mul_nonneg hw (le_of_lt h2)
      · exact le_refl 0

theorem attrContribution_le_weight (rd od : String → Option AttrVal) (a : String) (w : ℚ)
    (hw : 0 ≤ w) : attrContribution rd od a w ≤ w := by
  unfold attrContribution
  cases rd a with
  | none => exact le_refl w
  | some rv =>
    cases od a with
    | none => exact hw
    | some ov =>
      simp only
      split_ifs with h1 h2
      · exact le_refl w
      · exact mul_le_of_le_one_right hw (compare_attribute_le_one a rv ov)
      · exact hw

/-! ## Sample records (from `rfp_agent/test_components.py`) -/

/-- The fully specified requirement record of the component tests. -/
def rfpFull : ExtractedAttributes :=
  { voltage := some "11kv", conductor_material := some "al",
    cross_section := some "300sqmm", core_count := some 3, insulation := some "xlpe",
    armouring := some "gi_strip", sheathing := some "pvc" }

/-- The same record with the higher 33 kV voltage rating. -/
def oemHigher : ExtractedAttributes := { rfpFull with voltage := some "33kv" }

/-- A record specifying only the voltage. -/
def voltOnly : ExtractedAttributes := { voltage := some "11kv" }

theorem emptyAttrs_get (a : String) : emptyAttrs.get a = none := by
  unfold ExtractedAttributes.get emptyAttrs
  split_ifs <;> rfl

/-! ## Claim C1 — asymmetric missing-data policy -/

/-- C1: during scoring, an attribute the requirement does not specify
contributes its full weight and is recorded in none of the three lists; an
attribute the requirement specifies but the candidate lacks contributes
nothing and is recorded missing; and consequently the empty requirement
(whose every lookup is `None`) scores exactly 100 against any candidate when
the engine's weights sum to 1 (the validated invariant, which the default
weights satisfy exactly). The score is the rounded percentage of the sum of
the per-attribute contributions. -/
theorem c1_missing_data_policy (e : Engine) (r o : ExtractedAttributes)
    (hkeys : ∀ p ∈ e.weights, p.1 ∈ canonicalAttrs) :
    ((calculate_match_score e r o).1
        = pyRound2 ((e.weights.map fun p => attrContribution r.get o.get p.1 p.2).sum * 100))
    ∧ (∀ a w, (a, w) ∈ e.weights → r.get a = none →
        attrContribution r.get o.get a w = w
        ∧ a ∉ (calculate_match_score e r o).2.1
        ∧ a ∉ (calculate_match_score e r o).2.2.1
        ∧ a ∉ (calculate_match_score e r o).2.2.2)
    ∧ (∀ a w, (a, w) ∈ e.weights → r.get a ≠ none → o.get a = none →
        attrContribution r.get o.get a w = 0
        ∧ a ∈ (calculate_match_score e r o).2.2.2)
    ∧ (sumWeights e.weights = 1 → (calculate_match_score e emptyAttrs o).1 = 100) := by
  refine ⟨?_, ?_, ?_, ?_⟩
  · simp only [calculate_match_score]
    rw [calcLoop_score]
  · intro a w hin ha
    have hmem := calcLoop_not_mem_of_none r.get o.get a e.weights hkeys
      (hkeys (a, w) hin) ha
    exact ⟨by simp [attrContribution, ha], hmem.1, hmem.2.1, hmem.2.2⟩
  · intro a w hin hr ho
    refine ⟨?_, calcLoop_mem_missing r.get o.get a w e.weights hin hr ho⟩
    cases hrv : r.get a with
    | none => exact absurd hrv hr
    | some rv => simp [attrContribution, hrv, ho]
  · intro hsum
    have hmap : (e.weights.map fun p => attrContribution emptyAttrs.get o.get p.1 p.2)
        = e.weights.map Prod.snd :=
      List.map_congr_left fun p _ => by simp [attrContribution, emptyAttrs_get]
    simp only [calculate_match_score]
    rw [calcLoop_score, hmap]
    rw [show (e.weights.map Prod.snd).sum = sumWeights e.weights from rfl, hsum]
    rw [pyRound2_ofMul _ 10000 (by norm_num)]
    norm_num

/-- Witness for C1: the default engine gives the empty requirement a score
of 100 against the empty candidate. -/
theorem c1_missing_data_policy_witness :
    (calculate_match_score defaultEngine emptyAttrs emptyAttrs).1 = 100 :=
  (c1_missing_data_policy defaultEngine emptyAttrs emptyAttrs (by decide)).2.2.2
    (by norm_num [sumWeights, defaultEngine, ATTRIBUTE_WEIGHTS])

/-! ## Claim C8 — identity (reflexivity) -/

/-- C8: a fully specified record scored against itself gives 100, for any
engine whose weights sum to 1 (the validated invariant, exact for the
default weights): the comparator credits every value 1 against itself, since
both sides normalize identically. Reflexivity in fact holds for any record,
fully specified or not, because unspecified attributes also award full
weight. -/
theorem c8_identity (e : Engine) (hsum : sumWeights e.weights = 1)
    (r : ExtractedAttributes) (hfull : fullySpecified r) :
    (calculate_match_score e r r).1 = 100 := by
  have hmap : (e.weights.map fun p => attrContribution r.get r.get p.1 p.2)
      = e.weights.map Prod.snd :=
    List.map_congr_left fun p _ => attrContribution_of_get_eq r.get r.get p.1 p.2 rfl
  simp only [calculate_match_score]
  rw [calcLoop_score, hmap]
  rw [show (e.weights.map Prod.snd).sum = sumWeights e.weights from rfl, hsum]
  rw [pyRound2_ofMul _ 10000 (by norm_num)]
  norm_num

/-- Witness for C8 at the default engine and the fully specified test
record. -/
theorem c8_identity_witness : (calculate_match_score defaultEngine rfpFull rfpFull).1 = 100 :=
  c8_identity defaultEngine (by norm_num [sumWeights, defaultEngine, ATTRIBUTE_WEIGHTS])
    rfpFull (by decide)

/-! ## Claim C6 — core count is equality-only -/

/-- C6: the core-count comparator awards credit 1 on equality and 0 on any
mismatch (never an intermediate value), so with the default weights a
core-count mismatch with every other attribute of the requirement and the
candidate agreeing yields exactly 100 − 0.15 × 100. -/
theorem c6_core_count_equality_only :
    (∀ x y : Int, compare_attribute "core_count" (.i x) (.i y) = if x = y then 1 else 0)
    ∧ (∀ r o : ExtractedAttributes, ∀ x y : Int,
        r.core_count = some x → o.core_count = some y → x ≠ y →
        (∀ a ∈ canonicalAttrs, a ≠ "core_count" → r.get a = o.get a) →
        (calculate_match_score defaultEngine r o).1 = 100 - (15/100) * 100) := by
  have hcomp0 : ∀ x y : Int, x ≠ y → compare_attribute "core_count" (.i x) (.i y) = 0 := by
    intro x y hxy
    simp [compare_attribute, normalizeOperand, hxy]
  constructor
  · intro x y
    by_cases hxy : x = y
    · subst hxy; simp [compare_attribute, normalizeOperand]
    · simp [hcomp0 x y hxy, hxy]
  · intro r o x y hx hy hxy heq
    have hg : r.get "core_count" = some (.i x) := by
      simp [ExtractedAttributes.get, hx]
    have hog : o.get "core_count" = some (.i y) := by
      simp [ExtractedAttributes.get, hy]
    have hcore : attrContribution r.get o.get "core_count" (15/100) = 0 := by
      simp [attrContribution, hg, hog, hcomp0 x y hxy]
    simp only [calculate_match_score, defaultEngine]
    rw [calcLoop_score]
    simp only [ATTRIBUTE_WEIGHTS, List.map_cons, List.map_nil, List.sum_cons, List.sum_nil]
    rw [attrContribution_of_get_eq _ _ _ _ (heq "voltage" (by decide) (by decide)),
        attrContribution_of_get_eq _ _ _ _ (heq "conductor_material" (by decide) (by decide)),
        attrContribution_of_get_eq _ _ _ _ (heq "cross_section" (by decide) (by decide)),
        hcore,
        attrContribution_of_get_eq _ _ _ _ (heq "insulation" (by decide) (by decide)),
        attrContribution_of_get_eq _ _ _ _ (heq "armouring" (by decide) (by decide)),
        attrContribution_of_get_eq _ _ _ _ (heq "sheathing" (by decide) (by decide))]
    rw [pyRound2_ofMul _ 8500 (by norm_num)]
    norm_num

/-! ## Claim C7 — score classification thresholds -/

/-- C7: classification assigns EXACT at scores of 95 and above, CLOSE on
[80, 95), PARTIAL on [threshold, 80) with the configured minimum threshold
equal to 60, and NONE below the threshold. -/
theorem c7_classification (s : ℚ) :
    (matchStatusOf s = .exact_match ↔ 95 ≤ s)
    ∧ (matchStatusOf s = .close_match ↔ 80 ≤ s ∧ s < 95)
    ∧ (matchStatusOf s = .partial_match ↔ 60 ≤ s ∧ s < 80)
    ∧ (matchStatusOf s = .no_match ↔ s < 60)
    ∧ MINIMUM_MATCH_THRESHOLD = 60 := by
  unfold matchStatusOf MINIMUM_MATCH_THRESHOLD
  split_ifs with h1 h2 h3
  · refine ⟨by simp [h1], ?_, ?_, ?_, rfl⟩
    · constructor
      · intro h; cases h
      · rintro ⟨-, hb⟩; linarith
    · constructor
      · intro h; cases h
      · rintro ⟨-, hb⟩; linarith
    · constructor
      · intro h; cases h
      · intro hb; linarith
  · refine ⟨?_, ?_, ?_, ?_, rfl⟩
    · constructor
      · intro h; cases h
      · intro hb; exact absurd hb h1
    · simp [h2, not_le.mp h1]
    · constructor
      · intro h; cases h
      · rintro ⟨-, hb⟩; linarith
    · constructor
      · intro h; cases h
      · intro hb; linarith
  · refine ⟨?_, ?_, ?_, ?_, rfl⟩
    · constructor
      · intro h; cases h
      · intro hb; exact absurd hb h1
    · constructor
      · intro h; cases h
      · rintro ⟨hb, -⟩; exact absurd hb h2
    · simp [h3, not_le.mp h2]
    · constructor
      · intro h; cases h
      · intro hb; linarith
  · refine ⟨?_, ?_, ?_, ?_, rfl⟩
    · constructor
      · intro h; cases h
      · intro hb; exact absurd hb h1
    · constructor
      · intro h; cases h
      · rintro ⟨hb, -⟩; exact absurd hb h2
    · constructor
      · intro h; cases h
      · rintro ⟨hb, -⟩; exact absurd hb h3
    · simp [not_le.mp h3]

/-! ## Claim C3 — construction-time weight validation -/

/-- C3 counterexample: the claim says construction fails for every weights
mapping containing a negative weight; but a mapping with a negative weight
whose sum is 1 is accepted, and so is an empty mapping (sum 0, outside the
claimed tolerance), which Python truthiness silently replaces by the
defaults. -/
theorem c3_counterexample :
    (mkEngine (some [("a", -(1/2)), ("b", 3/2)])).isOk = true
    ∧ ((-(1/2) : ℚ) < 0)
    ∧ (mkEngine (some ([] : List (String × ℚ)))).isOk = true
    ∧ sumWeights ([] : List (String × ℚ)) = 0 := by
  refine ⟨?_, by norm_num, ?_, by simp [sumWeights]⟩
  · unfold mkEngine
    rw [show effectiveWeights (some [("a", -(1/2)), ("b", 3/2)])
          = [("a", -(1/2)), ("b", 3/2)] from by simp [effectiveWeights]]
    rw [show sumWeights [("a", -(1/2)), ("b", 3/2)] = 1 from by norm_num [sumWeights]]
    rw [if_neg (by norm_num)]
    rfl
  · unfold mkEngine
    rw [show effectiveWeights (some ([] : List (String × ℚ))) = ATTRIBUTE_WEIGHTS from
          by simp [effectiveWeights]]
    rw [show sumWeights ATTRIBUTE_WEIGHTS = 1 from by norm_num [sumWeights, ATTRIBUTE_WEIGHTS]]
    rw [if_neg (by norm_num)]
    rfl

/-- C3 (amended): construction succeeds exactly when the effective weights —
the argument, or the defaults when the argument is `None` or empty — sum to
1.0 within the 0.01 tolerance. Negative weights are not rejected. -/
theorem c3_construction_validation (weights : Option (List (String × ℚ))) :
    (mkEngine weights).isOk = true ↔ |sumWeights (effectiveWeights weights) - 1| ≤ 1/100 := by
  unfold mkEngine
  split_ifs with h
  · rw [isOk_error]
    constructor
    · intro hh; cases hh
    · intro hle; exact absurd h (not_lt.mpr hle)
  · rw [isOk_ok]
    exact ⟨fun _ => not_lt.mp h, fun _ => rfl⟩

/-! ## Claim C4 — score range and rounding -/

/-- C4 counterexample: the claim quantifies over every weights mapping
accepted by the construction-time validation; the mapping
`{"voltage": 1.009}` passes (its sum deviates from 1 by 0.009 ≤ 0.01), yet
an exact voltage match then scores 100.9, outside [0, 100]. -/
theorem c4_counterexample :
    mkEngine (some [("voltage", 1009/1000)]) = .ok ⟨[("voltage", 1009/1000)]⟩
    ∧ (calculate_match_score ⟨[("voltage", 1009/1000)]⟩ voltOnly voltOnly).1 = 1009/10
    ∧ ¬ ((1009 : ℚ)/10 ≤ 100) := by
  refine ⟨?_, ?_, by norm_num⟩
  · unfold mkEngine
    rw [show effectiveWeights (some [("voltage", (1009:ℚ)/1000)])
          = [("voltage", (1009:ℚ)/1000)] from by simp [effectiveWeights]]
    rw [show sumWeights [("voltage", (1009:ℚ)/1000)] - 1 = 9/1000 from
          by norm_num [sumWeights]]
    have hne : ¬ ((1:ℚ)/100 < |(9:ℚ)/1000|) := by
      rw [abs_of_nonneg (by norm_num : (0:ℚ) ≤ 9/1000)]; norm_num
    rw [if_neg hne]
  · have hg : voltOnly.get "voltage" = some (.s "11kv") := by
      simp [ExtractedAttributes.get, voltOnly]
    have hc : compare_attribute "voltage" (.s "11kv") (.s "11kv") = 1 := by
      simp [compare_attribute]
    simp only [calculate_match_score]
    rw [calcLoop_score]
    simp only [List.map_cons, List.map_nil, List.sum_cons, List.sum_nil]
    have hcontrib : attrContribution voltOnly.get voltOnly.get "voltage" (1009/1000)
        = 1009/1000 := by
      simp [attrContribution, hg, hc]
    rw [hcontrib]
    rw [pyRound2_ofMul _ 10090 (by norm_num)]
    norm_num

/-- C4 (amended): for an engine whose weights are non-negative and sum to at
most 1 — as the default weights do; validation alone admits sums up to 1.01
and negative entries — every score lies in [0, 100] and is a fixed point of
rounding to two decimals. -/
theorem c4_score_range (e : Engine) (hpos : ∀ p ∈ e.weights, 0 ≤ p.2)
    (hsum : sumWeights e.weights ≤ 1) (r o : ExtractedAttributes) :
    0 ≤ (calculate_match_score e r o).1
    ∧ (calculate_match_score e r o).1 ≤ 100
    ∧ pyRound2 (calculate_match_score e r o).1 = (calculate_match_score e r o).1 := by
  have hraw0 : 0 ≤ (calcLoop r.get o.get e.weights).1 := by
    rw [calcLoop_score]
    apply List.sum_nonneg
    intro x hx
    simp only [List.mem_map] at hx
    obtain ⟨p, hp, rfl⟩ := hx
    exact attrContribution_nonneg _ _ _ _ (hpos p hp)
  have hraw1 : (calcLoop r.get o.get e.weights).1 ≤ 1 := by
    rw [calcLoop_score]
    calc (e.weights.map fun p => attrContribution r.get o.get p.1 p.2).sum
        ≤ (e.weights.map Prod.snd).sum :=
          List.sum_le_sum fun p hp => attrContribution_le_weight _ _ _ _ (hpos p hp)
      _ ≤ 1 := hsum
  simp only [calculate_match_score]
  set x := (calcLoop r.get o.get e.weights).1 with hx
  refine ⟨?_, ?_, pyRound2_idem _⟩
  · unfold pyRound2
    apply div_nonneg _ (by norm_num)
    exact_mod_cast roundHalfEven_nonneg _ (by nlinarith)
  · unfold pyRound2
    rw [div_le_iff (by norm_num : (0:ℚ) < 100)]
    have hle : roundHalfEven (x * 100 * 100) ≤ 10000 :=
      roundHalfEven_le _ 10000 (by push_cast; nlinarith)
    calc ((roundHalfEven (x * 100 * 100) : ℤ) : ℚ) ≤ ((10000 : ℤ) : ℚ) := by
          exact_mod_cast hle
      _ = 100 * 100 := by norm_num

/-! ## Claim C2 — the voltage and cross-section comparator policies -/

/-- The unit-stripped numeric magnitude of a voltage string, as the source
parses it (`float(v.replace('kv', '').replace('v', ''))`). -/
def voltageMagnitude (s : String) : Option ℚ := pyFloat (pyRemove "v" (pyRemove "kv" s))

/-- The unit-stripped numeric magnitude of a cross-section string
(`float(cs.replace('sqmm', ''))`). -/
def crossSectionMagnitude (s : String) : Option ℚ := pyFloat (pyRemove "sqmm" s)

/-- The voltage policy as the spec words it: equal within 0.1 gives credit
1, a strictly greater candidate 0.8, a lower candidate 0, and an unparsable
side 0 (refinement target for `compare_voltage`). -/
def spec_voltage_policy (rv ov : String) : ℚ :=
  match voltageMagnitude rv, voltageMagnitude ov with
  | some rfp_num, some oem_num =>
    if |rfp_num - oem_num| < 1/10 then 1
    else if oem_num > rfp_num then 8/10
    else 0
  | _, _ => 0

/-- The cross-section policy as the spec words it: identical to the voltage
policy with candidate-greater credit 0.9. -/
def spec_cross_section_policy (rv ov : String) : ℚ :=
  match crossSectionMagnitude rv, crossSectionMagnitude ov with
  | some rfp_num, some oem_num =>
    if |rfp_num - oem_num| < 1/10 then 1
    else if oem_num > rfp_num then 9/10
    else 0
  | _, _ => 0

example : compare_voltage (.s "11kv") (.s "33kv") = 8/10 := by
  have h1 : pyRemove "v" (pyRemove "kv" "11kv") = "11" := by decide
  have h2 : pyRemove "v" (pyRemove "kv" "33kv") = "33" := by decide
  have h3 : pyFloat "11" = some 11 := by simp [pyFloat, pyStrip, stripList, pyWs, digitsVal]
  have h4 : pyFloat "33" = some 33 := by simp [pyFloat, pyStrip, stripList, pyWs, digitsVal]
  simp only [compare_voltage, h1, h2, h3, h4]
  norm_num

example : compare_voltage (.s "33kv") (.s "11kv") = 0 := by
  have h1 : pyRemove "v" (pyRemove "kv" "11kv") = "11" := by decide
  have h2 : pyRemove "v" (pyRemove "kv" "33kv") = "33" := by decide
  have h3 : pyFloat "11" = some 11 := by simp [pyFloat, pyStrip, stripList, pyWs, digitsVal]
  have h4 : pyFloat "33" = some 33 := by simp [pyFloat, pyStrip, stripList, pyWs, digitsVal]
  simp only [compare_voltage, h1, h2, h3, h4]
  norm_num

example : compare_voltage (.s "11kv") (.s "garbled") = 0 := by
  have h0 : pyRemove "v" (pyRemove "kv" "11kv") = "11" := by decide
  have h1 : pyRemove "v" (pyRemove "kv" "garbled") = "garbled" := by decide
  have h2 : pyFloat "garbled" = none := by
    simp [pyFloat, pyStrip, stripList, pyWs]
  have h3 : pyFloat "11" = some 11 := by simp [pyFloat, pyStrip, stripList, pyWs, digitsVal]
  simp only [compare_voltage, h0, h1, h2, h3]

example : compare_cross_section (.s "240sqmm") (.s "300sqmm") = 9/10 := by
  have h1 : pyRemove "sqmm" "240sqmm" = "240" := by decide
  have h2 : pyRemove "sqmm" "300sqmm" = "300" := by decide
  have h3 : pyFloat "240" = some 240 := by simp [pyFloat, pyStrip, stripList, pyWs, digitsVal]
  have h4 : pyFloat "300" = some 300 := by simp [pyFloat, pyStrip, stripList, pyWs, digitsVal]
  simp only [compare_cross_section, h1, h2, h3, h4]
  norm_num

/-- C2: the voltage comparator implements exactly the spec's policy (credit
1 within 0.1, 0.8 for a strictly greater candidate, 0 for a lower or
unparsable one), and likewise the cross-section comparator with 0.9;
both are total functions whose only values are their documented credits
(no error can escape), and a fractional credit is recorded in the
mismatched list with the `" (partial)"` qualifier during scoring. -/
theorem c2_scalar_comparator_policy (rv ov : String) :
    (compare_voltage (.s rv) (.s ov) = spec_voltage_policy rv ov)
    ∧ (compare_cross_section (.s rv) (.s ov) = spec_cross_section_policy rv ov)
    ∧ (∀ v w : AttrVal,
        compare_voltage v w = 0 ∨ compare_voltage v w = 8/10 ∨ compare_voltage v w = 1)
    ∧ (∀ v w : AttrVal,
        compare_cross_section v w = 0 ∨ compare_cross_section v w = 9/10 ∨
        compare_cross_section v w = 1)
    ∧ (∀ (e : Engine) (r o : ExtractedAttributes) (a : String) (w : ℚ) (x y : AttrVal),
        (a, w) ∈ e.weights → r.get a = some x → o.get a = some y →
        compare_attribute a x y ≠ 1 → 0 < compare_attribute a x y →
        (a ++ " (partial)") ∈ (calculate_match_score e r o).2.2.1) := by
  refine ⟨rfl, rfl, compare_voltage_cases, compare_cross_section_cases, ?_⟩
  intro e r o a w x y hin hr ho hc1 hc0
  exact calcLoop_mem_partial r.get o.get a w x y e.weights hin hr ho hc1 hc0

/-! ## Claim C10 — idempotence of value normalization -/

theorem lowerPairs_not_ws : ∀ p ∈ lowerPairs, pyWs p.1 = false ∧ pyWs p.2 = false := by
  decide

theorem lowerPairs_snd_not_key : ∀ p ∈ lowerPairs, ∀ q ∈ lowerPairs, p.2 ≠ q.1 := by
  decide

theorem pyLowerChar_of_none {c : Char} (h : lowerPairs.find? (fun p => p.1 = c) = none) :
    pyLowerChar c = c := by
  simp [pyLowerChar, h]

theorem pyLowerChar_of_some {c : Char} {p : Char × Char}
    (h : lowerPairs.find? (fun p => p.1 = c) = some p) : pyLowerChar c = p.2 := by
  simp [pyLowerChar, h]

theorem pyLowerChar_idem (c : Char) : pyLowerChar (pyLowerChar c) = pyLowerChar c := by
  cases hf : lowerPairs.find? (fun p => p.1 = c) with
  | none => rw [pyLowerChar_of_none hf, pyLowerChar_of_none hf]
  | some p =>
    rw [pyLowerChar_of_some hf]
    have hmem := List.mem_of_find?_eq_some hf
    have hnone : lowerPairs.find? (fun q => q.1 = p.2) = none := by
      rw [List.find?_eq_none]
      intro q hq
      simp only [decide_eq_true_eq]
      exact fun he => lowerPairs_snd_not_key p hmem q hq he.symm
    rw [pyLowerChar_of_none hnone]

theorem pyWs_pyLowerChar (c : Char) : pyWs (pyLowerChar c) = pyWs c := by
  cases hf : lowerPairs.find? (fun p => p.1 = c) with
  | none => rw [pyLowerChar_of_none hf]
  | some p =>
    rw [pyLowerChar_of_some hf]
    have hmem := List.mem_of_find?_eq_some hf
    have hc : p.1 = c := by
      have := List.find?_some hf
      simpa using this
    rw [← hc, (lowerPairs_not_ws p hmem).2, (lowerPairs_not_ws p hmem).1]

theorem dropWhile_self {α : Type} (p : α → Bool) (l : List α) :
    List.dropWhile p (List.dropWhile p l) = List.dropWhile p l := by
  induction l with
  | nil => rfl
  | cons x xs ih =>
    by_cases h : p x = true
    · simp only [List.dropWhile_cons, if_pos h, ih]
    · simp only [List.dropWhile_cons, if_neg h]

theorem dropWhile_head_false {α : Type} {p : α → Bool} {l : List α} {x : α} {t : List α}
    (h : List.dropWhile p l = x :: t) : p x = false := by
  induction l with
  | nil => cases h
  | cons y ys ih =>
    rw [List.dropWhile_cons] at h
    by_cases hy : p y = true
    · rw [if_pos hy] at h; exact ih h
    · rw [if_neg hy] at h
      injection h with h1 h2
      subst h1
      exact Bool.eq_false_iff.mpr hy

theorem stripList_head_false {l : List Char} {x : Char} {t : List Char}
    (h : stripList l = x :: t) : pyWs x = false := by
  unfold stripList at h
  obtain ⟨pre, hpre⟩ : ∃ pre, (List.dropWhile pyWs l).reverse
      = pre ++ (List.dropWhile pyWs ((List.dropWhile pyWs l).reverse)) :=
    ⟨_, (List.takeWhile_append_dropWhile pyWs ((List.dropWhile pyWs l).reverse)).symm⟩
  have hA : List.dropWhile pyWs l
      = (List.dropWhile pyWs ((List.dropWhile pyWs l).reverse)).reverse ++ pre.reverse := by
    have h2 := congrArg List.reverse hpre
    simpa [List.reverse_append] using h2
  rw [h] at hA
  exact dropWhile_head_false (by simpa using hA)

theorem stripList_idem (l : List Char) : stripList (stripList l) = stripList l := by
  have h1 : List.dropWhile pyWs (stripList l) = stripList l := by
    cases hS : stripList l with
    | nil => rfl
    | cons x t =>
      rw [List.dropWhile_cons, if_neg]
      simp [stripList_head_false hS]
  have h2 : (stripList l).reverse = List.dropWhile pyWs ((List.dropWhile pyWs l).reverse) := by
    unfold stripList; rw [List.reverse_reverse]
  have expand : stripList (stripList l)
      = ((List.dropWhile pyWs (stripList l)).reverse.dropWhile pyWs).reverse := rfl
  rw [expand, h1, h2, dropWhile_self]
  rfl

theorem dropWhile_map_pyLower (l : List Char) :
    List.dropWhile pyWs (l.map pyLowerChar) = (List.dropWhile pyWs l).map pyLowerChar := by
  induction l with
  | nil => rfl
  | cons x xs ih =>
    rw [List.map_cons, List.dropWhile_cons, List.dropWhile_cons, pyWs_pyLowerChar]
    by_cases h : pyWs x = true
    · rw [if_pos h, if_pos h, ih]
    · rw [if_neg h, if_neg h, List.map_cons]

theorem stripList_map_pyLower (l : List Char) :
    stripList (l.map pyLowerChar) = (stripList l).map pyLowerChar := by
  unfold stripList
  rw [dropWhile_map_pyLower, ← List.map_reverse, dropWhile_map_pyLower, ← List.map_reverse]

theorem map_pyLower_idem (l : List Char) :
    (l.map pyLowerChar).map pyLowerChar = l.map pyLowerChar := by
  rw [List.map_map]
  exact List.map_congr_left fun c _ => pyLowerChar_idem c

/-- Lower-casing then stripping is a closure operator: its image is fixed. -/
theorem strip_lower_fixed (s : String) :
    pyStrip (pyLower (pyStrip (pyLower s))) = pyStrip (pyLower s) := by
  show String.mk (stripList (List.map pyLowerChar (stripList (List.map pyLowerChar s.data))))
      = String.mk (stripList (List.map pyLowerChar s.data))
  rw [← stripList_map_pyLower, stripList_idem, map_pyLower_idem]

theorem lookup_mem_values {k v : String} {l : List (String × String)}
    (h : l.lookup k = some v) : v ∈ l.map Prod.snd := by
  induction l with
  | nil => cases h
  | cons p ps ih =>
    obtain ⟨pk, pv⟩ := p
    cases hk : k == pk with
    | true =>
      rw [List.lookup_cons, hk] at h
      have h' : some pv = some v := h
      injection h' with hv
      subst hv
      simp
    | false =>
      rw [List.lookup_cons, hk] at h
      have h' : List.lookup k ps = some v := h
      simp [ih h']

/-- Every output of the synonym table is its own normalization. -/
theorem normalized_values_fixed :
    ∀ v ∈ NORMALIZED_VALUES.map Prod.snd, normalize_value v = v := by
  decide

/-- C10: `normalize_value` is idempotent — every value it produces (a
synonym-table output, or a lower-cased stripped pass-through) is a fixed
point of a second application, so re-normalizing an already normalized
record changes nothing. -/
theorem c10_normalize_value_idem (s : String) :
    normalize_value (normalize_value s) = normalize_value s := by
  by_cases hs : s = ""
  · subst hs; decide
  · have hform : normalize_value s
        = match NORMALIZED_VALUES.lookup (pyStrip (pyLower s)) with
          | some v => v
          | none => pyStrip (pyLower s) := by
      simp [normalize_value, hs]
    cases hl : NORMALIZED_VALUES.lookup (pyStrip (pyLower s)) with
    | some v =>
      rw [hform, hl]
      exact normalized_values_fixed v (lookup_mem_values hl)
    | none =>
      rw [hform, hl]
      by_cases hn : pyStrip (pyLower s) = ""
      · rw [hn]; decide
      · have hfix := strip_lower_fixed s
        simp [normalize_value, hn, hfix, hl]

/-- Witness for C4 at the default engine and the fully specified test
record. -/
theorem c4_score_range_witness :
    0 ≤ (calculate_match_score defaultEngine rfpFull oemHigher).1
    ∧ (calculate_match_score defaultEngine rfpFull oemHigher).1 ≤ 100
    ∧ pyRound2 (calculate_match_score defaultEngine rfpFull oemHigher).1
        = (calculate_match_score defaultEngine rfpFull oemHigher).1 :=
  c4_score_range defaultEngine
    (by intro p hp; fin_cases hp <;> norm_num)
    (by norm_num [sumWeights, defaultEngine, ATTRIBUTE_WEIGHTS]) rfpFull oemHigher

/-! ## The embedding pipeline (`utils/vector_db.py`)

`SimpleEmbedder` computes `np.log` and `np.linalg.norm`, so this part of the
embedding is modelled exactly over `ℝ` (the definitions carry
`noncomputable` where a real-number value is produced). -/

/-- A regex word character after lower-casing (ASCII fragment of `\w`):
`[a-z0-9_]`. -/
def pyWordChar (c : Char) : Bool :=
  ('a' ≤ c && c ≤ 'z') || ('0' ≤ c && c ≤ '9') || c = '_'

/-- Fuel-structured worker for `wordRuns`; fuel at least the list's length
suffices, each step consuming at least one character. -/
def wordRunsAux : ℕ → List Char → List (List Char)
  | _, [] => []
  | 0, _ => []
  | fuel + 1, c :: cs =>
    if pyWordChar c then
      (c :: cs.takeWhile pyWordChar) :: wordRunsAux fuel (cs.dropWhile pyWordChar)
    else
      wordRunsAux fuel cs

/-- The maximal word-character runs of a character list. -/
def wordRuns (l : List Char) : List (List Char) := wordRunsAux l.length l

/-- `SimpleEmbedder._tokenize`: `re.findall(r'\b[a-z0-9]+\b', text.lower())`.
A match must start and end at a word boundary and `_` is a word character
outside the matched class, so the tokens are exactly the maximal
word-character runs of the lowered text that contain no underscore. -/
def tokenize (text : String) : List String :=
  ((wordRuns (pyLower text).data).filter fun r => !(r.contains '_')).map String.mk

example : tokenize "11kV 3C x 300sqmm Al XLPE Cable" =
    ["11kv", "3c", "x", "300sqmm", "al", "xlpe", "cable"] := by decide
example : tokenize "a_b c" = ["c"] := by decide
example : tokenize "x" = ["x"] := by decide

/-- Fuel-structured worker for `firstOccur`. -/
def firstOccurAux : ℕ → List String → List String
  | _, [] => []
  | 0, _ => []
  | fuel + 1, x :: xs => x :: firstOccurAux fuel (xs.filter fun y => !(y == x))

/-- The distinct elements of a list in first-occurrence order — the
iteration order of a Python dict keyed by those elements (`tf.items()`), and
the deterministic stand-in for the unspecified iteration order of Python
sets in `fit`. -/
def firstOccur (l : List String) : List String := firstOccurAux l.length l

example : firstOccur ["b", "a", "b", "c", "a"] = ["b", "a", "c"] := by decide

theorem mem_of_mem_firstOccurAux :
    ∀ (fuel : ℕ) (l : List String) (w : String), w ∈ firstOccurAux fuel l → w ∈ l := by
  intro fuel
  induction fuel with
  | zero => intro l w h; cases l <;> cases h
  | succ n ih =>
    intro l w h
    cases l with
    | nil => cases h
    | cons x xs =>
      rcases List.mem_cons.mp h with rfl | htail
      · simp
      · exact List.mem_cons_of_mem _ (List.mem_of_mem_filter (ih _ _ htail))

theorem mem_of_mem_firstOccur {l : List String} {w : String} (h : w ∈ firstOccur l) :
    w ∈ l :=
  mem_of_mem_firstOccurAux l.length l w h

/-- The number of corpus documents containing `w` (`doc_freq[w]` after
`fit`'s first loop). -/
def docFreq (texts : List String) (w : String) : ℕ :=
  (texts.filter fun t => (tokenize t).contains w).length

/-- Stable insertion into a descending-by-key list: an element goes after
every element of at least its key, modelling Python's stable
`sorted(..., reverse=True)`. -/
def insertDescBy (key : String → ℕ) (x : String) : List String → List String
  | [] => [x]
  | y :: ys => if key x ≤ key y then y :: insertDescBy key x ys else x :: y :: ys

/-- Stable sort, descending by key. -/
def sortDescBy (key : String → ℕ) (l : List String) : List String :=
  l.foldl (fun acc x => insertDescBy key x acc) []

/-- The state of `SimpleEmbedder`: dimension, vocabulary (term to dimension
index), idf table and fitted flag. -/
structure SimpleEmbedder where
  dimension : ℕ
  vocabulary : List (String × ℕ)
  idf : List (String × ℝ)
  fitted : Bool

/-- `SimpleEmbedder.fit`: document frequency per term, vocabulary of the
top-`dimension` terms by document frequency, and
`idf(w) = log(n_docs / (doc_freq(w) + 1))` for every term seen. The corpus
word order iterates documents in order and each document's distinct words
in first-occurrence order (the Python source iterates a `set`, whose order
is unspecified; the order only permutes vocabulary indices and resolves
truncation ties, neither of which the distances depend on for corpora whose
terms all fit the dimension). -/
noncomputable def fitEmbedder (dim : ℕ) (texts : List String) : SimpleEmbedder :=
  { dimension := dim
    vocabulary :=
      (((sortDescBy (docFreq texts) (firstOccur (texts.map tokenize).flatten)).take dim).enum).map
        fun p => (p.2, p.1)
    idf := (firstOccur (texts.map tokenize).flatten).map
      fun w => (w, Real.log ((texts.length : ℝ) / ((docFreq texts w : ℝ) + 1)))
    fitted := true }

/-- `max(tf.values()) if tf else 1`: the largest raw term count of the
text, or 1 for an empty token list. -/
def maxTf (tokens : List String) : ℕ :=
  if tokens = [] then 1
  else ((firstOccur tokens).map fun w => tokens.count w).foldr max 0

/-- The unnormalized tf-idf vector `embed` builds before normalization:
starting from zeros, each distinct token in the vocabulary writes
`(count / max_count) * idf` at its vocabulary index (`idf.get(word, 0)`). -/
noncomputable def rawVector (e : SimpleEmbedder) (text : String) : ℕ → ℝ :=
  (firstOccur (tokenize text)).foldl
    (fun v w =>
      match e.vocabulary.lookup w with
      | some idx =>
        Function.update v idx
          (((tokenize text).count w : ℝ) / (maxTf (tokenize text) : ℝ)
            * ((e.idf.lookup w).getD 0))
      | none => v)
    fun _ => 0

/-- The vector `embed` returns: the raw vector L2-normalized when its norm
over the embedder's dimension is positive, unchanged otherwise
(`if norm > 0: vector = vector / norm`). -/
noncomputable def embedVec (e : SimpleEmbedder) (text : String) : ℕ → ℝ :=
  if 0 < Real.sqrt (∑ i in Finset.range e.dimension, rawVector e text i ^ 2) then
    fun i => rawVector e text i
      / Real.sqrt (∑ j in Finset.range e.dimension, rawVector e text j ^ 2)
  else rawVector e text

/-- `SimpleEmbedder.embed`: fails (`ValueError`) before `fit`, otherwise
returns the (possibly normalized) tf-idf vector. -/
noncomputable def SimpleEmbedder.embed (e : SimpleEmbedder) (text : String) :
    Except String (ℕ → ℝ) :=
  if e.fitted = false then .error "Embedder must be fitted before embedding"
  else .ok (embedVec e text)

/-- `models.OEMProduct` (the fields the retrieval core reads). -/
structure OEMProduct where
  sku_id : String
  product_name : String
  datasheet_text : String
  specs : ExtractedAttributes
deriving DecidableEq, Repr

/-- `config.EMBEDDING_DIMENSION`. -/
def EMBEDDING_DIMENSION : ℕ := 384

/-- The state of `VectorDatabase`: embedder, product list, one stored
embedding per product (the fallback branch of the source keeps the
embedding matrix itself; the FAISS branch delegates storage to the external
FAISS library and is not code of this repository), and the
initialization flag. -/
structure VectorDatabase where
  embedder : SimpleEmbedder
  products : List OEMProduct
  embeddings : List (ℕ → ℝ)
  is_initialized : Bool

/-- A fresh `VectorDatabase()`: an unfitted `SimpleEmbedder(EMBEDDING_DIMENSION)`,
no products, not initialized. -/
def freshDB : VectorDatabase :=
  { embedder := { dimension := EMBEDDING_DIMENSION, vocabulary := [], idf := [], fitted := false }
    products := []
    embeddings := []
    is_initialized := false }

/-- `VectorDatabase.initialize_from_products`: fails on an empty catalog,
otherwise fits the embedder on the datasheet texts, embeds every text, and
stores products and embeddings (the fallback storage branch). -/
noncomputable def initialize_from_products (db : VectorDatabase)
    (products : List OEMProduct) : Except String VectorDatabase :=
  if products = [] then .error "No products provided to initialize database"
  else
    .ok { embedder := fitEmbedder db.embedder.dimension (products.map OEMProduct.datasheet_text)
          products := products
          embeddings := (products.map OEMProduct.datasheet_text).map
            (embedVec (fitEmbedder db.embedder.dimension (products.map OEMProduct.datasheet_text)))
          is_initialized := true }

/-- Stable insertion into an ascending-by-key index list (ties keep the
earlier index first), modelling `np.argsort`'s ascending order. -/
noncomputable def insertAscBy (key : ℕ → ℝ) (x : ℕ) : List ℕ → List ℕ
  | [] => [x]
  | y :: ys => if key y ≤ key x then y :: insertAscBy key x ys else x :: y :: ys

/-- `np.argsort(key over 0..n-1)`, ascending. -/
noncomputable def argsortAsc (key : ℕ → ℝ) (n : ℕ) : List ℕ :=
  (List.range n).foldl (fun acc i => insertAscBy key i acc) []

/-- The similarity list of the fallback search:
`np.dot(self.embeddings, query_embedding)`, one dot product per stored
embedding, taken over the embedder's dimension. -/
noncomputable def simsList (db : VectorDatabase) (qv : ℕ → ℝ) : List ℝ :=
  db.embeddings.map fun v => ∑ j in Finset.range db.embedder.dimension, v j * qv j

/-- Placeholder product for the (never reached in the source) out-of-range
index of `self.products[idx]`. -/
def defaultProduct : OEMProduct := ⟨"", "", "", {}⟩

/-- `np.argsort(similarities)[::-1][:k]`: the first `k` indices of the
reversed ascending argsort. -/
noncomputable def fallbackOrder (key : ℕ → ℝ) (n k : ℕ) : List ℕ :=
  ((argsortAsc key n).reverse).take k

/-- `VectorDatabase.similarity_search`, fallback branch: fails before
initialization; otherwise embeds the query and returns the products at
`np.argsort(similarities)[::-1][:k]` — descending dot-product similarity. -/
noncomputable def similarity_search (db : VectorDatabase) (query_text : String) (k : ℕ) :
    Except String (List OEMProduct) :=
  if db.is_initialized = false then
    .error "Vector database not initialized. Call initialize_from_products first."
  else
    match db.embedder.embed query_text with
    | .error msg => .error msg
    | .ok qv =>
      .ok ((fallbackOrder (fun i => (simsList db qv).getD i 0) (simsList db qv).length k).map
        fun i => db.products.getD i defaultProduct)

/-! ## Claim C9 — embedding never divides by zero -/

theorem rawVector_foldl_const (e : SimpleEmbedder) (text : String) :
    ∀ (ws : List String) (v : ℕ → ℝ), (∀ w ∈ ws, e.vocabulary.lookup w = none) →
      ws.foldl
        (fun v w =>
          match e.vocabulary.lookup w with
          | some idx =>
            Function.update v idx
              (((tokenize text).count w : ℝ) / (maxTf (tokenize text) : ℝ)
                * ((e.idf.lookup w).getD 0))
          | none => v)
        v = v := by
  intro ws
  induction ws with
  | nil => intro v _; rfl
  | cons w rest ih =>
    intro v h
    rw [List.foldl_cons]
    rw [show (match e.vocabulary.lookup w with
        | some idx =>
          Function.update v idx
            (((tokenize text).count w : ℝ) / (maxTf (tokenize text) : ℝ)
              * ((e.idf.lookup w).getD 0))
        | none => v) = v from by rw [h w (by simp)]]
    exact ih v fun x hx => h x (List.mem_cons_of_mem _ hx)

/-- A text none of whose tokens is in the vocabulary embeds to the raw zero
vector. -/
theorem rawVector_zero (e : SimpleEmbedder) (text : String)
    (h : ∀ w ∈ tokenize text, e.vocabulary.lookup w = none) :
    rawVector e text = fun _ => (0 : ℝ) := by
  unfold rawVector
  exact rawVector_foldl_const e text _ _
    fun w hw => h w (mem_of_mem_firstOccur hw)

/-- A zero raw vector is returned unchanged: the norm is 0 and the
normalization branch is skipped, so no division by zero occurs. -/
theorem embedVec_of_raw_zero (e : SimpleEmbedder) (text : String)
    (h : rawVector e text = fun _ => (0 : ℝ)) :
    embedVec e text = fun _ => (0 : ℝ) := by
  unfold embedVec
  rw [h]
  simp

/-- A raw vector with a nonzero coordinate inside the dimension is
L2-normalized: the returned vector's squared norm is 1. -/
theorem embedVec_normalized (e : SimpleEmbedder) (text : String)
    (h : ∃ i ∈ Finset.range e.dimension, rawVector e text i ≠ 0) :
    ∑ i in Finset.range e.dimension, embedVec e text i ^ 2 = 1 := by
  obtain ⟨i0, hi0, hne⟩ := h
  have hS : 0 < ∑ i in Finset.range e.dimension, rawVector e text i ^ 2 :=
    Finset.sum_pos' (fun i _ => sq_nonneg _) ⟨i0, hi0, by positivity⟩
  have hsqrt : 0 < Real.sqrt (∑ i in Finset.range e.dimension, rawVector e text i ^ 2) :=
    Real.sqrt_pos.mpr hS
  unfold embedVec
  rw [if_pos hsqrt]
  simp only [div_pow]
  rw [← Finset.sum_div, Real.sq_sqrt (le_of_lt hS)]
  exact div_self (ne_of_gt hS)

/-- C9: embedding is guarded against the zero norm — before `fit` it fails,
after `fit` it returns `embedVec`; a text with no vocabulary term builds
the zero raw vector and returns the zero vector unchanged (no division by
zero); a text writing a nonzero weight at some coordinate of the dimension
is L2-normalized (squared norm exactly 1). -/
theorem c9_embed_zero_safety (e : SimpleEmbedder) (text : String) :
    (e.fitted = true → e.embed text = .ok (embedVec e text))
    ∧ (e.fitted = false → e.embed text = .error "Embedder must be fitted before embedding")
    ∧ ((∀ w ∈ tokenize text, e.vocabulary.lookup w = none) →
        embedVec e text = fun _ => (0 : ℝ))
    ∧ ((∃ i ∈ Finset.range e.dimension, rawVector e text i ≠ 0) →
        ∑ i in Finset.range e.dimension, embedVec e text i ^ 2 = 1) := by
  refine ⟨?_, ?_, ?_, embedVec_normalized e text⟩
  · intro h
    unfold SimpleEmbedder.embed
    rw [if_neg (by simp [h])]
  · intro h
    unfold SimpleEmbedder.embed
    rw [if_pos h]
  · intro h
    exact embedVec_of_raw_zero e text (rawVector_zero e text h)

/-! ## Claim C5 — similarity search ranking -/

theorem length_insertAscBy (key : ℕ → ℝ) (x : ℕ) (l : List ℕ) :
    (insertAscBy key x l).length = l.length + 1 := by
  induction l with
  | nil => rfl
  | cons y ys ih =>
    show (if key y ≤ key x then y :: insertAscBy key x ys else x :: y :: ys).length
        = (y :: ys).length + 1
    split_ifs
    · simp [ih]
    · simp

theorem length_argsortAsc (key : ℕ → ℝ) (n : ℕ) : (argsortAsc key n).length = n := by
  have hfold : ∀ (l acc : List ℕ),
      (l.foldl (fun acc i => insertAscBy key i acc) acc).length = acc.length + l.length := by
    intro l
    induction l with
    | nil => intro acc; simp
    | cons i is ih =>
      intro acc
      rw [List.foldl_cons, ih, length_insertAscBy, List.length_cons]
      omega
  unfold argsortAsc
  rw [hfold, List.length_range]
  simp

theorem mem_insertAscBy (key : ℕ → ℝ) (x : ℕ) (l : List ℕ) (y : ℕ) :
    y ∈ insertAscBy key x l ↔ y = x ∨ y ∈ l := by
  induction l with
  | nil => simp [insertAscBy]
  | cons z zs ih =>
    show y ∈ (if key z ≤ key x then z :: insertAscBy key x zs else x :: z :: zs) ↔ _
    split_ifs
    · simp only [List.mem_cons, ih]
      tauto
    · simp only [List.mem_cons]

theorem sorted_insertAscBy (key : ℕ → ℝ) (x : ℕ) (l : List ℕ)
    (hl : List.Sorted (fun i j => key i ≤ key j) l) :
    List.Sorted (fun i j => key i ≤ key j) (insertAscBy key x l) := by
  induction l with
  | nil => simp [insertAscBy]
  | cons y ys ih =>
    rw [List.sorted_cons] at hl
    show List.Sorted _ (if key y ≤ key x then y :: insertAscBy key x ys else x :: y :: ys)
    split_ifs with h
    · rw [List.sorted_cons]
      refine ⟨?_, ih hl.2⟩
      intro b hb
      rcases (mem_insertAscBy key x ys b).mp hb with rfl | hbys
      · exact h
      · exact hl.1 b hbys
    · rw [List.sorted_cons]
      refine ⟨?_, List.sorted_cons.mpr hl⟩
      intro b hb
      rcases List.mem_cons.mp hb with rfl | hbys
      · exact le_of_not_le h
      · exact le_trans (le_of_not_le h) (hl.1 b hbys)

theorem sorted_argsortAsc (key : ℕ → ℝ) (n : ℕ) :
    List.Sorted (fun i j => key i ≤ key j) (argsortAsc key n) := by
  have hfold : ∀ (l acc : List ℕ), List.Sorted (fun i j => key i ≤ key j) acc →
      List.Sorted (fun i j => key i ≤ key j)
        (l.foldl (fun acc i => insertAscBy key i acc) acc) := by
    intro l
    induction l with
    | nil => intro acc h; simpa using h
    | cons i is ih =>
      intro acc h
      rw [List.foldl_cons]
      exact ih _ (sorted_insertAscBy key i acc h)
  exact hfold _ [] (by simp)

theorem sorted_fallbackOrder (key : ℕ → ℝ) (n k : ℕ) :
    List.Sorted (fun i j => key j ≤ key i) (fallbackOrder key n k) := by
  unfold fallbackOrder
  have h1 : List.Pairwise (fun i j => key j ≤ key i) (argsortAsc key n).reverse :=
    List.pairwise_reverse.mpr (sorted_argsortAsc key n)
  exact List.Pairwise.sublist (List.take_sublist k _) h1

theorem length_fallbackOrder (key : ℕ → ℝ) (n k : ℕ) :
    (fallbackOrder key n k).length = min k n := by
  unfold fallbackOrder
  rw [List.length_take, List.length_reverse, length_argsortAsc]

/-- C5 (amended): before `build` the search fails with the not-initialized
error. On an initialized database with a fitted embedder, the in-repository
fallback branch returns the products at the index list
`np.argsort(similarities)[::-1][:k]` — `min k n` indices ranked by
descending dot-product similarity between each stored embedding and the
query embedding (not by ascending squared Euclidean distance, and with ties
reversed rather than broken by insertion order — see the counterexample). -/
theorem c5_search_fallback_behavior (db : VectorDatabase) (q : String) (k : ℕ) :
    (db.is_initialized = false →
      similarity_search db q k
        = .error "Vector database not initialized. Call initialize_from_products first.")
    ∧ (db.is_initialized = true → db.embedder.fitted = true →
        similarity_search db q k
          = .ok ((fallbackOrder
              (fun i => (simsList db (embedVec db.embedder q)).getD i 0)
              (simsList db (embedVec db.embedder q)).length k).map
                fun i => db.products.getD i defaultProduct))
    ∧ ((fallbackOrder (fun i => (simsList db (embedVec db.embedder q)).getD i 0)
          (simsList db (embedVec db.embedder q)).length k).length
        = min k db.embeddings.length)
    ∧ List.Sorted
        (fun i j => (simsList db (embedVec db.embedder q)).getD j 0
          ≤ (simsList db (embedVec db.embedder q)).getD i 0)
        (fallbackOrder (fun i => (simsList db (embedVec db.embedder q)).getD i 0)
          (simsList db (embedVec db.embedder q)).length k) := by
  refine ⟨?_, ?_, ?_, sorted_fallbackOrder _ _ _⟩
  · intro h
    unfold similarity_search
    rw [if_pos h]
  · intro hinit hfit
    have hemb : db.embedder.embed q = .ok (embedVec db.embedder q) := by
      unfold SimpleEmbedder.embed
      rw [if_neg (by simp [hfit])]
    unfold similarity_search
    rw [if_neg (by simp [hinit]), hemb]
  · rw [length_fallbackOrder]
    unfold simsList
    rw [List.length_map]

/-- A catalog item with datasheet text `"x"`. -/
def prodA : OEMProduct := ⟨"SKU-A", "Cable A", "x", {}⟩

/-- A second catalog item with the identical datasheet text `"x"`. -/
def prodB : OEMProduct := ⟨"SKU-B", "Cable B", "x", {}⟩

/-- The embedder fitted on the two-copy corpus `["x", "x"]`. -/
noncomputable def embAB : SimpleEmbedder := fitEmbedder EMBEDDING_DIMENSION ["x", "x"]

/-- The embedding of `"x"` under that embedder. -/
noncomputable def vecX : ℕ → ℝ := embedVec embAB "x"

/-- The database state `initialize_from_products` builds from the two-item
catalog. -/
noncomputable def dbAB : VectorDatabase :=
  { embedder := embAB
    products := [prodA, prodB]
    embeddings := [vecX, vecX]
    is_initialized := true }

theorem argsortAsc_pair_tie (key : ℕ → ℝ) (h : key 0 ≤ key 1) :
    argsortAsc key 2 = [0, 1] := by
  unfold argsortAsc
  rw [show List.range 2 = [0, 1] from by decide]
  rw [List.foldl_cons, List.foldl_cons, List.foldl_nil]
  rw [show insertAscBy key 0 [] = [0] from rfl]
  show (if key 0 ≤ key 1 then 0 :: insertAscBy key 1 [] else 1 :: 0 :: []) = [0, 1]
  rw [if_pos h]
  rfl

/-- C5 counterexample: two catalog items with identical datasheet texts get
identical stored embeddings, so their squared Euclidean distances to any
query tie; the spec's tie-break by catalog insertion order demands
`[prodA, prodB]`, but the fallback search reverses the ascending argsort
and returns `[prodB, prodA]`. -/
theorem c5_counterexample :
    initialize_from_products freshDB [prodA, prodB] = .ok dbAB
    ∧ dbAB.embeddings = [vecX, vecX]
    ∧ similarity_search dbAB "x" 2 = .ok [prodB, prodA]
    ∧ prodA ≠ prodB := by
  refine ⟨?_, rfl, ?_, by decide⟩
  · unfold initialize_from_products
    rw [if_neg (by decide : ¬ ([prodA, prodB] = []))]
    rfl
  · have hemb : dbAB.embedder.embed "x" = .ok vecX := by
      unfold SimpleEmbedder.embed
      rw [if_neg (by decide : ¬ (dbAB.embedder.fitted = false))]
      rfl
    unfold similarity_search
    rw [if_neg (by decide : ¬ (dbAB.is_initialized = false))]
    rw [hemb]
    show Except.ok ((fallbackOrder (fun i => (simsList dbAB vecX).getD i 0)
        (simsList dbAB vecX).length 2).map fun i => dbAB.products.getD i defaultProduct)
      = .ok [prodB, prodA]
    rw [show (simsList dbAB vecX).length = 2 from rfl]
    show Except.ok ((((argsortAsc (fun i => (simsList dbAB vecX).getD i 0) 2).reverse).take 2).map
        fun i => dbAB.products.getD i defaultProduct) = .ok [prodB, prodA]
    rw [argsortAsc_pair_tie (fun i => (simsList dbAB vecX).getD i 0) (le_refl _)]
    rfl

end RFP
